import Mathlib

set_option maxRecDepth 10000

/-!
Verification of the decompiler-scraper core pipeline
(`src/app/api/decompile/route.ts`, plus the persisted-job file endpoint and
the in-memory job storage module).

The TypeScript source is shallowly embedded: JS strings become `List Char`
(wrapped in `String` at the data-model boundary), JS objects used as string
maps become insertion-ordered association lists, the network and the two
external libraries (`axios`, `js-beautify`) become explicit function
parameters collected in `Env`, and the literal regular expressions of the
source are embedded via a small backtracking matcher (`Pat`/`mtch`) that
mirrors JavaScript `RegExp.exec` semantics (leftmost match, greedy
quantifiers with backtracking, left-biased alternation).
-/

/-! ## JS string / object primitives -/

/-- JS `String.prototype.split(sep)` for a single-character separator,
over the character list of the string.  `"".split(sep) = [""]`,
`"a//b".split("/") = ["a","","b"]`, exactly as in JavaScript. -/
def splitOnCharL (sep : Char) : List Char → List (List Char)
  | [] => [[]]
  | c :: cs =>
    let r := splitOnCharL sep cs
    if c = sep then [] :: r
    else
      match r with
      | [] => [[c]]
      | x :: xs => (c :: x) :: xs

/-- `s.split('/').pop() || dflt`: the last segment of the split, with the
JS falsy-fallback to `dflt` when that segment is the empty string. -/
def lastSegOr (s dflt : String) : String :=
  match (splitOnCharL '/' s.toList).reverse with
  | [] => dflt
  | x :: _ => if x = [] then dflt else String.mk x

/-- JS object property write `obj[k] = v` on an insertion-ordered
association list: overwrite in place when the key exists, else append. -/
def objSet {α : Type} (m : List (String × α)) (k : String) (v : α) : List (String × α) :=
  match m with
  | [] => [(k, v)]
  | (k2, v2) :: rest => if k2 = k then (k2, v) :: rest else (k2, v2) :: objSet rest k v

/-- JS object property read `obj[k]`: `some` value, or `none` (undefined). -/
def objGet {α : Type} (m : List (String × α)) (k : String) : Option α :=
  match m with
  | [] => none
  | (k2, v2) :: rest => if k2 = k then some v2 else objGet rest k

/-- JS `String.prototype.replace(needle, repl)` with a *string* first
argument: replaces only the first occurrence of `needle`. -/
def replaceFirstL (needle repl : List Char) : List Char → List Char
  | [] => if needle = [] then repl else []
  | c :: rest =>
    if needle.isPrefixOf (c :: rest) then repl ++ (c :: rest).drop needle.length
    else c :: replaceFirstL needle repl rest

/-- String wrapper for `replaceFirstL`. -/
def replaceFirst (s needle repl : String) : String :=
  String.mk (replaceFirstL needle.toList repl.toList s.toList)

/-- JS single-character global replace `s.replace(/c/g, repl)`. -/
def replaceCharL (c : Char) (repl : List Char) (cs : List Char) : List Char :=
  cs.flatMap (fun d => if d = c then repl else [d])

/-- The JS `\s` class, restricted to the code points the repository's data
can contain (ASCII whitespace plus NBSP); used by the embedded regexes and
by `trim`. -/
def isWsJS (c : Char) : Bool :=
  c = ' ' || c = '\t' || c = '\n' || c = '\r' || c = '\x0b' || c = '\x0c' || c = '\xa0'

/-- JS `String.prototype.trim()`: strip `\s` from both ends. -/
def trimL (cs : List Char) : List Char :=
  ((cs.dropWhile isWsJS).reverse.dropWhile isWsJS).reverse

/-- `pre.isPrefixOf s` on strings; embeds JS `s.startsWith(pre)`. -/
def jsStartsWith (s pre : String) : Bool :=
  pre.toList.isPrefixOf s.toList

/-- Does `hay` contain `needle` as a contiguous substring? -/
def containsSubL (needle : List Char) : List Char → Bool
  | [] => needle.isPrefixOf []
  | c :: cs => needle.isPrefixOf (c :: cs) || containsSubL needle cs

/-! ## A small regex engine with JavaScript `exec` semantics

Each literal regex of the source is embedded as a `Pat`.  `mtch` returns
the full list of alternatives `(consumed, remaining, capture)` in JS
backtracking priority order (greedy quantifiers longest-first, `?` present
first, alternation left-first); the head of that list is the JS match.
Only one capture group occurs per source regex, so a single optional
capture suffices. -/

/-- Left-biased merge of captures produced by the two sides of a
concatenation. -/
def capMerge (a b : Option (List Char)) : Option (List Char) :=
  match a with
  | some x => some x
  | none => b

/-- Regex syntax: literals, character classes with the quantifiers the
source regexes use, one capture group, concatenation, alternation and an
optional (possibly multi-character) group `(?:...)?`. -/
inductive Pat where
  | lit (s : List Char)
  | one (p : Char → Bool)
  | many (p : Char → Bool)
  | many1 (p : Char → Bool)
  | optC (p : Char → Bool)
  | grp (q : Pat)
  | cat (a b : Pat)
  | alt (a b : Pat)
  | optP (q : Pat)

/-- Greedy splits for a class quantifier `p*`: consuming `k` characters of
the maximal `p`-run, longest `k` first. -/
def manySplits (p : Char → Bool) (cs : List Char) : List (List Char × List Char) :=
  let t := cs.takeWhile p
  let d := cs.dropWhile p
  (List.range (t.length + 1)).map (fun j => (t.take (t.length - j), t.drop (t.length - j) ++ d))

/-- All ways a pattern can match a prefix of the input, as
`(consumed, remaining, capture)`, in JS backtracking priority order. -/
def mtch : Pat → List Char → List (List Char × List Char × Option (List Char))
  | .lit s, cs => if s.isPrefixOf cs then [(s, cs.drop s.length, none)] else []
  | .one _, [] => []
  | .one p, c :: cs => if p c then [([c], cs, none)] else []
  | .many p, cs => (manySplits p cs).map (fun t => (t.1, t.2, none))
  | .many1 p, cs => ((manySplits p cs).dropLast).map (fun t => (t.1, t.2, none))
  | .optC _, [] => [([], [], none)]
  | .optC p, c :: cs =>
    if p c then [([c], cs, none), ([], c :: cs, none)] else [([], c :: cs, none)]
  | .grp q, cs => (mtch q cs).map (fun r => (r.1, r.2.1, some r.1))
  | .cat a b, cs =>
    (mtch a cs).flatMap (fun r1 =>
      (mtch b r1.2.1).map (fun r2 => (r1.1 ++ r2.1, r2.2.1, capMerge r1.2.2 r2.2.2)))
  | .alt a b, cs => mtch a cs ++ mtch b cs
  | .optP q, cs => mtch q cs ++ [([], cs, none)]

/-- The source's `while ((match = pattern.exec(text)) !== null)` loop with a
global-flag regex: scan for the leftmost match, record
`(match[0], match[1])`, resume after it.  Matches of the embedded patterns
are never empty (each starts with a nonempty literal); the empty-match
guard only keeps the recursion total. -/
def execSkip (f : List Char → List (List Char × Option (List Char))) :
    List Char → List (List Char × Option (List Char))
  | [] => []
  | _ :: cs2 => f cs2

def execLoop (p : Pat) : Nat → List Char → List (List Char × Option (List Char))
  | 0, _ => []
  | fuel + 1, cs =>
    match (mtch p cs).head? with
    | some r =>
      if r.1 = [] then execSkip (execLoop p fuel) cs
      else (r.1, r.2.2) :: execLoop p fuel r.2.1
    | none => execSkip (execLoop p fuel) cs

/-- All non-overlapping matches of `p` in `cs`, leftmost-first. -/
def findAll (p : Pat) (cs : List Char) : List (List Char × Option (List Char)) :=
  execLoop p (cs.length + 1) cs

/-! ## Character classes of the source regexes -/

/-- `[A-Z]`. -/
def isUpperAZ (c : Char) : Bool := 'A' ≤ c && c ≤ 'Z'

/-- `[a-zA-Z0-9]`. -/
def isAlnumAZ (c : Char) : Bool :=
  ('a' ≤ c && c ≤ 'z') || ('A' ≤ c && c ≤ 'Z') || ('0' ≤ c && c ≤ '9')

/-- `[a-zA-Z_$]`. -/
def isIdent0 (c : Char) : Bool :=
  ('a' ≤ c && c ≤ 'z') || ('A' ≤ c && c ≤ 'Z') || c = '_' || c = '$'

/-- `[a-zA-Z0-9_$]`. -/
def isIdentCh (c : Char) : Bool := isIdent0 c || ('0' ≤ c && c ≤ '9')

/-- The single-quote character, `'`. -/
def squote : Char := Char.ofNat 39

/-- `[^}]`. -/
def notRBrace (c : Char) : Bool := !(c = '\x7d')

/-- `[^{]`. -/
def notLBrace (c : Char) : Bool := !(c = '\x7b')

/-- `[^)]`. -/
def notRParen (c : Char) : Bool := !(c = ')')

/-- `[^;]`. -/
def notSemi (c : Char) : Bool := !(c = ';')

/-- `["']`. -/
def isQuoteCh (c : Char) : Bool := c = '"' || c = squote

/-- `[^"']`. -/
def notQuoteCh (c : Char) : Bool := !(isQuoteCh c)

/-- `[^from]`: any character other than the four letters f, r, o, m. -/
def notFROMCh (c : Char) : Bool := !(c = 'f' || c = 'r' || c = 'o' || c = 'm')

/-- Right-nested concatenation of a pattern list. -/
def pseq : List Pat → Pat
  | [] => .lit []
  | [p] => p
  | p :: ps => .cat p (pseq ps)

/-! ## The three component regexes (`extractReactComponents`) -/

/-- The capture group `([A-Z][a-zA-Z0-9]*)` shared by all three component
patterns. -/
def nameGroup : Pat := .grp (.cat (.one isUpperAZ) (.many isAlnumAZ))

/-- Common prefix shape `kw\s+([A-Z][a-zA-Z0-9]*)` followed by a
pattern-specific rest. -/
def componentPat (kw : List Char) (rest : Pat) : Pat :=
  .cat (.lit kw) (.cat (.many1 isWsJS) (.cat nameGroup rest))

/-- Tail of `/function\s+([A-Z][a-zA-Z0-9]*)\s*\([^)]*\)\s*\{[^}]*return\s+[^}]*jsx?[^}]*\}/g`. -/
def restFnComponent : Pat :=
  pseq [.many isWsJS, .lit "(".toList, .many notRParen, .lit ")".toList,
        .many isWsJS, .lit "\x7b".toList, .many notRBrace, .lit "return".toList,
        .many1 isWsJS, .many notRBrace, .lit "js".toList, .optC (fun c => c = 'x'),
        .many notRBrace, .lit "\x7d".toList]

/-- `/function\s+([A-Z][a-zA-Z0-9]*)\s*\([^)]*\)\s*\{[^}]*return\s+[^}]*jsx?[^}]*\}/g`. -/
def patFnComponent : Pat := componentPat "function".toList restFnComponent

/-- Tail of `/const\s+([A-Z][a-zA-Z0-9]*)\s*=\s*\([^)]*\)\s*=>\s*\{[^}]*return[^}]*jsx?[^}]*\}/g`. -/
def restArrowComponent : Pat :=
  pseq [.many isWsJS, .lit "=".toList, .many isWsJS, .lit "(".toList,
        .many notRParen, .lit ")".toList, .many isWsJS, .lit "=>".toList,
        .many isWsJS, .lit "\x7b".toList, .many notRBrace, .lit "return".toList,
        .many notRBrace, .lit "js".toList, .optC (fun c => c = 'x'),
        .many notRBrace, .lit "\x7d".toList]

/-- `/const\s+([A-Z][a-zA-Z0-9]*)\s*=\s*\([^)]*\)\s*=>\s*\{[^}]*return[^}]*jsx?[^}]*\}/g`. -/
def patArrowComponent : Pat := componentPat "const".toList restArrowComponent

/-- Tail of `/class\s+([A-Z][a-zA-Z0-9]*)\s+extends\s+[^{]*\{[^}]*render\s*\(\s*\)\s*\{[^}]*return[^}]*\}/g`. -/
def restClassComponent : Pat :=
  pseq [.many1 isWsJS, .lit "extends".toList, .many1 isWsJS, .many notLBrace,
        .lit "\x7b".toList, .many notRBrace, .lit "render".toList, .many isWsJS,
        .lit "(".toList, .many isWsJS, .lit ")".toList, .many isWsJS,
        .lit "\x7b".toList, .many notRBrace, .lit "return".toList,
        .many notRBrace, .lit "\x7d".toList]

/-- `/class\s+([A-Z][a-zA-Z0-9]*)\s+extends\s+[^{]*\{[^}]*render\s*\(\s*\)\s*\{[^}]*return[^}]*\}/g`. -/
def patClassComponent : Pat := componentPat "class".toList restClassComponent

/-! ## The five module regexes (`extractModules`) -/

/-- `(?:function|class|const|let|var)`. -/
def declKeywordAlt : Pat :=
  .alt (.lit "function".toList)
    (.alt (.lit "class".toList)
      (.alt (.lit "const".toList)
        (.alt (.lit "let".toList) (.lit "var".toList))))

/-- `/export\s+(?:default\s+)?(?:function|class|const|let|var)\s+([a-zA-Z_$][a-zA-Z0-9_$]*)/g`. -/
def patExportDecl : Pat :=
  pseq [.lit "export".toList, .many1 isWsJS,
        .optP (.cat (.lit "default".toList) (.many1 isWsJS)),
        declKeywordAlt, .many1 isWsJS,
        .grp (.cat (.one isIdent0) (.many isIdentCh))]

/-- `/module\.exports\s*=\s*([^;]+)/g`. -/
def patModuleExports : Pat :=
  pseq [.lit "module.exports".toList, .many isWsJS, .lit "=".toList,
        .many isWsJS, .grp (.many1 notSemi)]

/-- `/exports\.([a-zA-Z_$][a-zA-Z0-9_$]*)\s*=/g`. -/
def patExportsDot : Pat :=
  pseq [.lit "exports.".toList, .grp (.cat (.one isIdent0) (.many isIdentCh)),
        .many isWsJS, .lit "=".toList]

/-- `/import\s+(?:[^from]+from\s+)?["']([^"']+)["']/g`. -/
def patImport : Pat :=
  pseq [.lit "import".toList, .many1 isWsJS,
        .optP (pseq [.many1 notFROMCh, .lit "from".toList, .many1 isWsJS]),
        .one isQuoteCh, .grp (.many1 notQuoteCh), .one isQuoteCh]

/-- `/require\(["']([^"']+)["']\)/g`. -/
def patRequire : Pat :=
  pseq [.lit "require(".toList, .one isQuoteCh, .grp (.many1 notQuoteCh),
        .one isQuoteCh, .lit ")".toList]

/-! ## Structural extraction (`extractReactComponents`, `extractModules`) -/

/-- `ExtractedComponent` of the source: `{ name, code, source }`. -/
structure ExtractedComponent where
  name : String
  code : String
  source : String
deriving DecidableEq

/-- `ModuleInfo` of the source: `{ identifier, match, source }` (`match` is a
Lean keyword, hence `matchText`). -/
structure ModuleInfo where
  identifier : String
  matchText : String
  source : String
deriving DecidableEq

/-- The source's guard `match[1] && match[1][0] === match[1][0].toUpperCase()`
applied to the head character of the capture. -/
def upperCheckJS (c : Char) : Bool := c.toUpper = c

/-- Turn one regex match into a component candidate: require a nonempty
(JS-truthy) capture whose first character equals its own upper-casing. -/
def candOfMatch (sourceFile : String) (r : List Char × Option (List Char)) :
    Option ExtractedComponent :=
  match r.2 with
  | some (c :: rest) =>
    if upperCheckJS c then some ⟨String.mk (c :: rest), String.mk r.1, sourceFile⟩ else none
  | _ => none

/-- `WebDecompiler.extractReactComponents` as a pure text-to-list function:
the three patterns applied in order, each scanned exhaustively. -/
def extractReactComponents (jsContent sourceFile : String) : List ExtractedComponent :=
  [patFnComponent, patArrowComponent, patClassComponent].flatMap
    (fun p => (findAll p jsContent.toList).filterMap (candOfMatch sourceFile))

/-- Turn one regex match into a module edge: require a nonempty (JS-truthy)
capture (`if (match[1])`). -/
def moduleOfMatch (sourceFile : String) (r : List Char × Option (List Char)) :
    Option ModuleInfo :=
  match r.2 with
  | some (c :: rest) => some ⟨String.mk (c :: rest), String.mk r.1, sourceFile⟩
  | _ => none

/-- `WebDecompiler.extractModules` as a pure text-to-list function: the five
patterns applied in order, each scanned exhaustively. -/
def extractModules (jsContent sourceFile : String) : List ModuleInfo :=
  [patExportDecl, patModuleExports, patExportsDot, patImport, patRequire].flatMap
    (fun p => (findAll p jsContent.toList).filterMap (moduleOfMatch sourceFile))

/-! ## CSS beautifier (`WebDecompiler.beautifyCSS`) -/

/-- The regex `\n\s*\n` of the blank-line collapse step. -/
def nlRunPat : Pat := pseq [.lit "\n".toList, .many isWsJS, .lit "\n".toList]

/-- Copy one character and continue scanning (no match at this position). -/
def replSkip (f : List Char → List Char) : List Char → List Char
  | [] => []
  | c :: cs2 => c :: f cs2

/-- JS global regex replace `s.replace(pat, repl)`: copy until the leftmost
match, emit the replacement, resume after the match. -/
def replaceAllPatAux (p : Pat) (repl : List Char) : Nat → List Char → List Char
  | 0, cs => cs
  | fuel + 1, cs =>
    match (mtch p cs).head? with
    | some r =>
      if r.1 = [] then replSkip (replaceAllPatAux p repl fuel) cs
      else repl ++ replaceAllPatAux p repl fuel r.2.1
    | none => replSkip (replaceAllPatAux p repl fuel) cs

/-- Fuel wrapper: each step consumes at least one character. -/
def replaceAllPat (p : Pat) (repl cs : List Char) : List Char :=
  replaceAllPatAux p repl cs.length cs

/-- `WebDecompiler.beautifyCSS` at the character-list level:
`.replace(/\{/g,' {\n  ').replace(/\}/g,'\n}\n').replace(/;/g,';\n  ')`
`.replace(/,/g,',\n  ').replace(/\n\s*\n/g,'\n').trim()`. -/
def beautifyCSSL (css : List Char) : List Char :=
  trimL
    (replaceAllPat nlRunPat "\n".toList
      (replaceCharL ',' ",\n  ".toList
        (replaceCharL ';' ";\n  ".toList
          (replaceCharL '\x7d' "\n\x7d\n".toList
            (replaceCharL '\x7b' " \x7b\n  ".toList css)))))

/-- `WebDecompiler.beautifyCSS`. -/
def beautifyCSS (css : String) : String := String.mk (beautifyCSSL css.toList)

/-! ## URL model and bundle discovery (`WebDecompiler.analyzeHTML`) -/

/-- A parsed absolute base URL: scheme, host and an absolute path starting
with `/`.  Query, fragment, userinfo and port are not exercised by the
claims and are omitted. -/
structure UrlBase where
  scheme : String
  host : String
  path : String
deriving DecidableEq

/-- Serialization of the base URL, `scheme://host/path`. -/
def UrlBase.render (b : UrlBase) : String := b.scheme ++ "://" ++ b.host ++ b.path

/-- The directory prefix of a path: everything up to and including the last
`/`. -/
def dirOf (p : String) : String :=
  String.mk ((p.toList.reverse.dropWhile (fun c => !(c = '/'))).reverse)

/-- Modelled from the spec: standard URL resolution (what `new URL(ref, base)`
computes), for references without dot-segments, query or fragment, against an
authority-based base URL.  Network-path references (`//h/p`) keep the base
scheme; path-absolute references replace the base path; references that
already carry a scheme are returned unchanged; other relative references are
resolved against the directory of the base path. -/
def urlResolveSpec (base : UrlBase) (ref : String) : String :=
  if containsSubL "://".toList ref.toList then ref
  else if "//".toList.isPrefixOf ref.toList then base.scheme ++ ":" ++ ref
  else if "/".toList.isPrefixOf ref.toList then base.scheme ++ "://" ++ base.host ++ ref
  else base.scheme ++ "://" ++ base.host ++ dirOf base.path ++ ref

inductive BundleType where
  | js
  | css
deriving DecidableEq

/-- `BundleInfo` of the source: `{ url, type, filename }`. -/
structure BundleInfo where
  url : String
  type : BundleType
  filename : String
deriving DecidableEq

/-- One element of the root document as cheerio exposes it to `analyzeHTML`:
a script tag (with its optional `src` attribute), a link tag (with its `rel`
value and optional `href`), or anything else.  The list order is document
order. -/
inductive Tag where
  | script (src : Option String)
  | link (rel : String) (href : Option String)
  | other
deriving DecidableEq

/-- `src.startsWith('/') ? new URL(src, this.baseUrl).href : src` with
`new URL` modelled by `urlResolveSpec`. -/
def mkBundleUrl (base : UrlBase) (ref : String) : String :=
  if jsStartsWith ref "/" then urlResolveSpec base ref else ref

/-- The script half of discovery: `$('script[src]')` selects scripts having a
`src` attribute; `if (src)` then drops the empty string. -/
def scriptBundle (base : UrlBase) (t : Tag) : Option BundleInfo :=
  match t with
  | .script (some src) =>
    if src = "" then none
    else some ⟨mkBundleUrl base src, .js, lastSegOr src "script.js"⟩
  | _ => none

/-- The stylesheet half of discovery: `$('link[rel="stylesheet"]')` then
`if (href)`. -/
def stylesheetBundle (base : UrlBase) (t : Tag) : Option BundleInfo :=
  match t with
  | .link rel (some href) =>
    if rel = "stylesheet" then
      if href = "" then none
      else some ⟨mkBundleUrl base href, .css, lastSegOr href "style.css"⟩
    else none
  | _ => none

/-- The bundle-collection body of `analyzeHTML`: all scripts (in document
order) followed by all stylesheet links (in document order), exactly as the
two sequential `.each` loops of the source produce them. -/
def discoverBundles (base : UrlBase) (tags : List Tag) : List BundleInfo :=
  tags.filterMap (scriptBundle base) ++ tags.filterMap (stylesheetBundle base)

/-! ## Pipeline state and environment -/

/-- The root document as cheerio exposes it: the raw text plus its tags in
document order. -/
structure HtmlDoc where
  raw : String
  tags : List Tag
deriving DecidableEq

/-- `SourceMapInfo` of the source; the two arrays the code checks for
presence (`if (sourceMap.sources && sourceMap.sourcesContent)`) are optional.
A JS array is truthy even when empty, so presence, not nonemptiness, is
modelled. -/
structure SourceMapInfo where
  sources : Option (List String)
  sourcesContent : Option (List String)
deriving DecidableEq

/-- The external world of one job: `axios` fetches (root document already
parsed by cheerio, bundle bodies as text, adjacent source maps already
JSON-parsed, with `none` covering every transport / status / parse failure
the source catches) and the `js-beautify` library (`none` models the
exception path caught at the `raw_` fallback). `parseUrl` is the WHATWG URL
parser used by `new URL(body.url)` for request validation. -/
structure Env where
  fetchHtml : String → Option HtmlDoc
  fetchAsset : String → Option String
  fetchMap : String → Option SourceMapInfo
  beautifyJS : String → Option String
  parseUrl : String → Option UrlBase

/-- `DecompilationResult` of `src/lib/storage.ts` / `route.ts`: the single
mutable record the orchestrator accumulates.  The `analysis` sub-object is
flattened into the four counter fields (`componentsCount` / `modulesCount`
stand for `analysis.components` / `analysis.modules`, which clash with the
list fields); the wall-clock `timestamp` is not modelled. -/
structure DecompilationResult where
  jobId : String
  url : String
  bundles : List BundleInfo
  components : List ExtractedComponent
  modules : List ModuleInfo
  originalFiles : List (String × String)
  beautifiedFiles : List (String × String)
  jsFiles : Nat
  cssFiles : Nat
  componentsCount : Nat
  modulesCount : Nat
deriving DecidableEq

/-- The empty result record the `WebDecompiler` constructor builds. -/
def initResults (jobId url : String) : DecompilationResult :=
  ⟨jobId, url, [], [], [], [], [], 0, 0, 0, 0⟩

/-- `this.extractReactComponents(beautifiedJs, bundle.filename)`: push all
candidates, then set `analysis.components = components.length`. -/
def extractReactComponentsStep (jsContent sourceFile : String)
    (s : DecompilationResult) : DecompilationResult :=
  let comps := s.components ++ extractReactComponents jsContent sourceFile
  { s with components := comps, componentsCount := comps.length }

/-- `this.extractModules(beautifiedJs, bundle.filename)`: push all edges,
then set `analysis.modules = modules.length`. -/
def extractModulesStep (jsContent sourceFile : String)
    (s : DecompilationResult) : DecompilationResult :=
  let mods := s.modules ++ extractModules jsContent sourceFile
  { s with modules := mods, modulesCount := mods.length }

/-- `WebDecompiler.downloadAndDecompileJS`: fetch (failure caught and
dropped), record the original, then beautify — storing under `beautified_`
and extracting on success, falling back to storing the untouched text under
`raw_` when the beautifier throws. -/
def downloadAndDecompileJS (env : Env) (bundle : BundleInfo)
    (s : DecompilationResult) : DecompilationResult :=
  match env.fetchAsset bundle.url with
  | none => s
  | some jsContent =>
    let s1 := { s with originalFiles := objSet s.originalFiles bundle.filename jsContent }
    match env.beautifyJS jsContent with
    | some beautifiedJs =>
      let s2 := { s1 with
        beautifiedFiles := objSet s1.beautifiedFiles ("beautified_" ++ bundle.filename) beautifiedJs,
        jsFiles := s1.jsFiles + 1 }
      extractModulesStep beautifiedJs bundle.filename
        (extractReactComponentsStep beautifiedJs bundle.filename s2)
    | none =>
      { s1 with beautifiedFiles := objSet s1.beautifiedFiles ("raw_" ++ bundle.filename) jsContent }

/-- `WebDecompiler.downloadAndDecompileCSS`: fetch (failure caught and
dropped), record the original, beautify (total) and count. -/
def downloadAndDecompileCSS (env : Env) (bundle : BundleInfo)
    (s : DecompilationResult) : DecompilationResult :=
  match env.fetchAsset bundle.url with
  | none => s
  | some cssContent =>
    let s1 := { s with originalFiles := objSet s.originalFiles bundle.filename cssContent }
    { s1 with
      beautifiedFiles := objSet s1.beautifiedFiles ("beautified_" ++ bundle.filename) (beautifyCSS cssContent),
      cssFiles := s1.cssFiles + 1 }

/-- The annotated recovered-source content of `extractFromSourceMap`. -/
def recoveredContent (originalUrl sourcePath content : String) : String :=
  "// Recovered from source map: " ++ originalUrl ++ "\n// Original path: " ++
    sourcePath ++ "\n\n" ++ content

/-- The path cleaning of `extractFromSourceMap`: `.replace('webpack://','')`
`.replace('../','').replace('./','')` — each a first-occurrence string
replace. -/
def cleanSourcePath (sourcePath : String) : String :=
  replaceFirst (replaceFirst (replaceFirst sourcePath "webpack://" "") "../" "") "./" ""

/-- `WebDecompiler.extractFromSourceMap`: when both arrays are present, store
every index with a truthy path and truthy content into `originalFiles` under
`source_<last segment of cleaned path>`. -/
def extractFromSourceMap (sourceMap : SourceMapInfo) (originalUrl : String)
    (s : DecompilationResult) : DecompilationResult :=
  match sourceMap.sources, sourceMap.sourcesContent with
  | some sources, some sourcesContent =>
    (List.range sources.length).foldl (fun acc i =>
      let sourcePath := sources.getD i ""
      let content := sourcesContent.getD i ""
      if sourcePath = "" || content = "" then acc
      else
        let filename := "source_" ++ lastSegOr (cleanSourcePath sourcePath) "unknown.js"
        let files := objSet acc.originalFiles filename (recoveredContent originalUrl sourcePath content)
        { acc with originalFiles := files }) s
  | _, _ => s

/-- `WebDecompiler.trySourceMapRecovery`: for each discovered JS bundle, try
`<bundle-url>.map`; any failure is silently skipped. -/
def trySourceMapRecovery (env : Env) (s : DecompilationResult) : DecompilationResult :=
  s.bundles.foldl (fun acc b =>
    match b.type with
    | .js =>
      match env.fetchMap (b.url ++ ".map") with
      | some m => extractFromSourceMap m b.url acc
      | none => acc
    | .css => acc) s

/-- `WebDecompiler.analyzeHTML`: fetch the root document (any failure throws
`'Failed to analyze HTML structure'`), collect the bundles, store the raw
HTML under `index.html` and record the bundle list. -/
def analyzeHTML (env : Env) (base : UrlBase) (s : DecompilationResult) :
    Except String (List BundleInfo × DecompilationResult) :=
  match env.fetchHtml base.render with
  | none => .error "Failed to analyze HTML structure"
  | some doc =>
    let bundles := discoverBundles base doc.tags
    .ok (bundles,
      { s with
        originalFiles := objSet s.originalFiles "index.html" doc.raw,
        bundles := bundles })

/-- The per-bundle dispatch of the `runFullDecompilation` loop. -/
def processBundle (env : Env) (s : DecompilationResult) (b : BundleInfo) :
    DecompilationResult :=
  match b.type with
  | .js => downloadAndDecompileJS env b s
  | .css => downloadAndDecompileCSS env b s

/-- `WebDecompiler.runFullDecompilation`: discover (fatal on failure), fail
when zero bundles were found, recover source maps, process every bundle in
discovery order, return the accumulated record. -/
def runFullDecompilation (env : Env) (base : UrlBase) (jobId : String) :
    Except String DecompilationResult :=
  match analyzeHTML env base (initResults jobId base.render) with
  | .error e => .error e
  | .ok (bundles, s1) =>
    if bundles.length = 0 then .error "No bundles found to decompile"
    else .ok (bundles.foldl (processBundle env) (trySourceMapRecovery env s1))

/-! ## The HTTP handlers -/

/-- `DecompilationRequest` of the source. -/
structure DecompilationRequest where
  url : String
  jobId : String
deriving DecidableEq

/-- The summary counters of a successful POST response. -/
structure SummaryCounters where
  jsFiles : Nat
  cssFiles : Nat
  components : Nat
  modules : Nat
  bundles : Nat
  files : Nat
deriving DecidableEq

/-- A POST response: success with counters, or an error status with message
and optional details. -/
inductive ApiResponse where
  | success (jobId : String) (results : SummaryCounters)
  | failure (status : Nat) (error : String) (details : Option String)
deriving DecidableEq

/-- `jobStorage.save(jobId, result)` of `src/lib/storage.ts`: `Map.set`
(overwrite or insert; the refreshed `timestamp` is not modelled). -/
def saveJob (storage : List (String × DecompilationResult)) (jobId : String)
    (result : DecompilationResult) : List (String × DecompilationResult) :=
  objSet storage jobId result

/-- The `POST` handler of `route.ts`: validate the body (JS truthiness on
both fields), validate the URL via the platform parser, run the job, save on
success only, and map a thrown error to a 500 with its message as details. -/
def POST (env : Env) (body : DecompilationRequest)
    (storage : List (String × DecompilationResult)) :
    ApiResponse × List (String × DecompilationResult) :=
  if body.url = "" || body.jobId = "" then
    (.failure 400 "URL and jobId are required" none, storage)
  else
    match env.parseUrl body.url with
    | none => (.failure 400 "Invalid URL provided" none, storage)
    | some base =>
      match runFullDecompilation env base body.jobId with
      | .error e => (.failure 500 "Decompilation failed" (some e), storage)
      | .ok results =>
        (.success body.jobId
          ⟨results.jsFiles, results.cssFiles, results.componentsCount,
           results.modulesCount, results.bundles.length,
           results.originalFiles.length + results.beautifiedFiles.length⟩,
         saveJob storage body.jobId results)

/-- The per-file payload of the files endpoint. -/
structure FileResponse where
  name : String
  content : String
  category : String
  size : Nat
deriving DecidableEq

/-- Outcome of the file-content endpoint (only the `?file=` branch of the
handler is claimed). -/
inductive FilesApiResult where
  | fileOk (f : FileResponse)
  | apiError (status : Nat) (error : String)
deriving DecidableEq

/-- JS truthiness lookup `obj[k]` as used by
`if (result.originalFiles[fileName])`: an absent key and an empty-string
value are both falsy. -/
def truthyGet (m : List (String × String)) (k : String) : Option String :=
  match objGet m k with
  | some c => if c = "" then none else some c
  | none => none

/-- The `?file=` branch of the files `GET` handler
(`app/api/files/[jobId]/route.ts`): look the job up, then try
`originalFiles` (truthy), then `beautifiedFiles` (truthy), else 404
`'File not found'`; the reported `size` is `content.length`. -/
def filesGET (storage : List (String × DecompilationResult))
    (jobId fileName : String) : FilesApiResult :=
  match objGet storage jobId with
  | none => .apiError 404 "Job not found"
  | some result =>
    match truthyGet result.originalFiles fileName with
    | some content => .fileOk ⟨fileName, content, "original", content.length⟩
    | none =>
      match truthyGet result.beautifiedFiles fileName with
      | some content => .fileOk ⟨fileName, content, "beautified", content.length⟩
      | none => .apiError 404 "File not found"

/-! ## Basic lemmas -/

theorem objGet_objSet_self {α : Type} (m : List (String × α)) (k : String) (v : α) :
    objGet (objSet m k v) k = some v := by
  induction m with
  | nil => simp [objSet, objGet]
  | cons h t ih =>
    obtain ⟨k2, v2⟩ := h
    by_cases hk : k2 = k
    · simp [objSet, objGet, hk]
    · simp [objSet, objGet, hk, ih]

theorem objGet_objSet_ne {α : Type} (m : List (String × α)) (k k2 : String) (v : α)
    (h : k ≠ k2) : objGet (objSet m k v) k2 = objGet m k2 := by
  induction m with
  | nil => simp [objSet, objGet, h]
  | cons hd t ih =>
    obtain ⟨k3, v3⟩ := hd
    by_cases hk : k3 = k
    · subst hk
      simp [objSet, objGet, h]
    · simp [objSet, objGet, hk, ih]

theorem length_filterMap_eq_countP {α β : Type} (f : α → Option β) (l : List α) :
    (l.filterMap f).length = l.countP (fun a => (f a).isSome) := by
  induction l with
  | nil => rfl
  | cons x xs ih =>
    simp only [List.filterMap_cons, List.countP_cons]
    cases h : f x <;> simp [h, ih]

theorem mem_of_head?_eq_some {α : Type} {l : List α} {a : α} (h : l.head? = some a) :
    a ∈ l := by
  cases l with
  | nil => simp at h
  | cons x xs =>
    simp only [List.head?_cons, Option.some.injEq] at h
    simp [h]

/-! ## Engine lemmas -/

theorem mem_mtch_lit {s cs : List Char} {r : List Char × List Char × Option (List Char)}
    (h : r ∈ mtch (.lit s) cs) :
    s.isPrefixOf cs = true ∧ r = (s, cs.drop s.length, none) := by
  by_cases hp : s.isPrefixOf cs <;> simp [mtch, hp] at h
  · exact ⟨hp, h⟩

theorem mem_mtch_one {p : Char → Bool} {cs : List Char}
    {r : List Char × List Char × Option (List Char)} (h : r ∈ mtch (.one p) cs) :
    ∃ c cs2, cs = c :: cs2 ∧ p c = true ∧ r = ([c], cs2, none) := by
  cases cs with
  | nil => simp [mtch] at h
  | cons c cs2 =>
    by_cases hp : p c <;> simp [mtch, hp] at h
    · exact ⟨c, cs2, rfl, hp, h⟩

theorem mem_manySplits {p : Char → Bool} {cs : List Char} {t : List Char × List Char}
    (h : t ∈ manySplits p cs) :
    (∀ c ∈ t.1, p c = true) ∧ t.1 ++ t.2 = cs := by
  simp only [manySplits, List.mem_map, List.mem_range] at h
  obtain ⟨j, _, hj⟩ := h
  subst hj
  constructor
  · intro c hc
    exact List.mem_takeWhile_imp (List.mem_of_mem_take hc)
  · rw [← List.append_assoc, List.take_append_drop]
    exact List.takeWhile_append_dropWhile p cs

theorem mem_mtch_many {p : Char → Bool} {cs : List Char}
    {r : List Char × List Char × Option (List Char)} (h : r ∈ mtch (.many p) cs) :
    (∀ c ∈ r.1, p c = true) ∧ r.1 ++ r.2.1 = cs ∧ r.2.2 = none := by
  simp only [mtch, List.mem_map] at h
  obtain ⟨t, ht, hr⟩ := h
  obtain ⟨h1, h2⟩ := mem_manySplits ht
  subst hr
  exact ⟨h1, h2, rfl⟩

theorem mem_mtch_many1 {p : Char → Bool} {cs : List Char}
    {r : List Char × List Char × Option (List Char)} (h : r ∈ mtch (.many1 p) cs) :
    (∀ c ∈ r.1, p c = true) ∧ r.1 ++ r.2.1 = cs ∧ r.2.2 = none := by
  simp only [mtch, List.mem_map] at h
  obtain ⟨t, ht, hr⟩ := h
  obtain ⟨h1, h2⟩ := mem_manySplits (List.dropLast_sublist (manySplits p cs) |>.mem ht)
  subst hr
  exact ⟨h1, h2, rfl⟩

theorem mem_mtch_optC {p : Char → Bool} {cs : List Char}
    {r : List Char × List Char × Option (List Char)} (h : r ∈ mtch (.optC p) cs) :
    r.1 ++ r.2.1 = cs ∧ r.2.2 = none := by
  cases cs with
  | nil => simp [mtch] at h; simp [h]
  | cons c cs2 =>
    by_cases hp : p c <;> simp [mtch, hp] at h
    · rcases h with h | h <;> simp [h]
    · simp [h]

theorem mem_mtch_cat {a b : Pat} {cs : List Char}
    {r : List Char × List Char × Option (List Char)} (h : r ∈ mtch (.cat a b) cs) :
    ∃ t1 rm1 c1 t2 rm2 c2, (t1, rm1, c1) ∈ mtch a cs ∧ (t2, rm2, c2) ∈ mtch b rm1 ∧
      r = (t1 ++ t2, rm2, capMerge c1 c2) := by
  simp only [mtch, List.mem_flatMap, List.mem_map] at h
  obtain ⟨⟨t1, rm1, c1⟩, h1, ⟨t2, rm2, c2⟩, h2, hr⟩ := h
  exact ⟨t1, rm1, c1, t2, rm2, c2, h1, h2, hr.symm⟩

theorem mem_mtch_grp {q : Pat} {cs : List Char}
    {r : List Char × List Char × Option (List Char)} (h : r ∈ mtch (.grp q) cs) :
    ∃ t rm c0, (t, rm, c0) ∈ mtch q cs ∧ r = (t, rm, some t) := by
  simp only [mtch, List.mem_map] at h
  obtain ⟨⟨t, rm, c0⟩, h0, hr⟩ := h
  exact ⟨t, rm, c0, h0, hr.symm⟩

theorem mem_mtch_alt {a b : Pat} {cs : List Char}
    {r : List Char × List Char × Option (List Char)} (h : r ∈ mtch (.alt a b) cs) :
    r ∈ mtch a cs ∨ r ∈ mtch b cs := by
  simpa [mtch] using h

theorem mem_mtch_optP {q : Pat} {cs : List Char}
    {r : List Char × List Char × Option (List Char)} (h : r ∈ mtch (.optP q) cs) :
    r ∈ mtch q cs ∨ r = ([], cs, none) := by
  simpa [mtch] using h

/-- Every match consumes a prefix: consumed ++ remaining = input. -/
theorem mtch_append {pat : Pat} : ∀ {cs : List Char}
    {r : List Char × List Char × Option (List Char)}, r ∈ mtch pat cs →
    r.1 ++ r.2.1 = cs := by
  induction pat with
  | lit s =>
    intro cs r h
    obtain ⟨hp, hr⟩ := mem_mtch_lit h
    subst hr
    have := List.isPrefixOf_iff_prefix.mp hp
    obtain ⟨t, ht⟩ := this
    simp [← ht, List.drop_left]
  | one p =>
    intro cs r h
    obtain ⟨c, cs2, hcs, _, hr⟩ := mem_mtch_one h
    subst hr; subst hcs; rfl
  | many p =>
    intro cs r h
    exact (mem_mtch_many h).2.1
  | many1 p =>
    intro cs r h
    exact (mem_mtch_many1 h).2.1
  | optC p =>
    intro cs r h
    exact (mem_mtch_optC h).1
  | grp q ih =>
    intro cs r h
    obtain ⟨t, rm, c0, h0, hr⟩ := mem_mtch_grp h
    subst hr
    simpa using ih h0
  | cat a b iha ihb =>
    intro cs r h
    obtain ⟨t1, rm1, c1, t2, rm2, c2, h1, h2, hr⟩ := mem_mtch_cat h
    subst hr
    have hb := ihb h2
    have ha := iha h1
    simp only [] at hb ha ⊢
    rw [List.append_assoc, hb, ha]
  | alt a b iha ihb =>
    intro cs r h
    rcases mem_mtch_alt h with h | h
    · exact iha h
    · exact ihb h
  | optP q ih =>
    intro cs r h
    rcases mem_mtch_optP h with h | h
    · exact ih h
    · subst h; rfl

/-- Every match of a component pattern captures a name whose first character
is in `[A-Z]` (the group is `([A-Z][a-zA-Z0-9]*)`). -/
theorem componentPat_capture {kw : List Char} {rest : Pat} {cs : List Char}
    {r : List Char × List Char × Option (List Char)}
    (h : r ∈ mtch (componentPat kw rest) cs) :
    ∃ c t, r.2.2 = some (c :: t) ∧ isUpperAZ c = true := by
  obtain ⟨t1, rm1, c1, t2, rm2, c2, h1, h2, hr⟩ := mem_mtch_cat h
  obtain ⟨_, hr1⟩ := mem_mtch_lit h1
  have hc1 : c1 = none := by
    have := congrArg (fun x => x.2.2) hr1
    simpa using this
  obtain ⟨t3, rm3, c3, t4, rm4, c4, h3, h4, hr2⟩ := mem_mtch_cat h2
  have hc3 : c3 = none := (mem_mtch_many1 h3).2.2
  obtain ⟨t5, rm5, c5, t6, rm6, c6, h5, h6, hr4⟩ := mem_mtch_cat h4
  obtain ⟨t7, rm7, c7, h7, hr5⟩ := mem_mtch_grp h5
  obtain ⟨t8, rm8, c8, t9, rm9, c9, h8, _, hr7⟩ := mem_mtch_cat h7
  obtain ⟨c0, cs2, _, hp, hr8⟩ := mem_mtch_one h8
  have ht7 : t7 = c0 :: t9 := by
    have := congrArg (fun x => x.1) hr7
    simp at this
    rw [this]
    have := congrArg (fun x => x.1) hr8
    simp at this
    rw [this]
    rfl
  have hc5 : c5 = some (c0 :: t9) := by
    have := congrArg (fun x => x.2.2) hr5
    simp at this
    rw [this, ht7]
  refine ⟨c0, t9, ?_, hp⟩
  have hr2c : c2 = capMerge c3 (capMerge c5 c6) := by
    have e4 := congrArg (fun x => x.2.2) hr4
    simp at e4
    have e2 := congrArg (fun x => x.2.2) hr2
    simp at e2
    rw [e2, e4]
  have : r.2.2 = capMerge c1 c2 := by
    have := congrArg (fun x => x.2.2) hr
    simpa using this
  rw [this, hr2c, hc1, hc3, hc5]
  rfl

/-- Every recorded match of the exec loop comes from a `mtch` result on some
suffix of the scan. -/
theorem execLoop_source {p : Pat} : ∀ {fuel : Nat} {cs : List Char}
    {m : List Char} {cap : Option (List Char)}, (m, cap) ∈ execLoop p fuel cs →
    ∃ rm cs2, (m, rm, cap) ∈ mtch p cs2 := by
  intro fuel
  induction fuel with
  | zero => intro cs m cap h; simp [execLoop] at h
  | succ n ih =>
    intro cs m cap h
    rw [execLoop] at h
    cases hh : (mtch p cs).head? with
    | none =>
      rw [hh] at h
      cases cs with
      | nil => simp [execSkip] at h
      | cons c cs2 => exact ih (by simpa [execSkip] using h)
    | some r =>
      rw [hh] at h
      dsimp only [] at h
      by_cases he : r.1 = []
      · rw [if_pos he] at h
        cases cs with
        | nil => simp [execSkip] at h
        | cons c cs2 => exact ih (by simpa [execSkip] using h)
      · rw [if_neg he] at h
        simp only [List.mem_cons] at h
        rcases h with h | h
        · refine ⟨r.2.1, cs, ?_⟩
          have hm : r ∈ mtch p cs := mem_of_head?_eq_some hh
          have hm2 : m = r.1 ∧ cap = r.2.2 :=
            ⟨congrArg (fun x => x.1) h, congrArg (fun x => x.2) h⟩
          rw [hm2.1, hm2.2]
          exact hm
        · exact ih h

/-- If no match starts before position `i` and the JS match at position `i`
is `r`, the exec loop records `r`. -/
theorem execLoop_first_match {p : Pat} :
    ∀ {i fuel : Nat} {cs : List Char} {r : List Char × List Char × Option (List Char)},
    (∀ j, j < i → mtch p (cs.drop j) = []) →
    (mtch p (cs.drop i)).head? = some r → r.1 ≠ [] → i + 1 ≤ fuel →
    (r.1, r.2.2) ∈ execLoop p fuel cs := by
  intro i
  induction i with
  | zero =>
    intro fuel cs r _ hr hne hf
    cases fuel with
    | zero => omega
    | succ n =>
      rw [execLoop]
      simp only [List.drop_zero] at hr
      rw [hr]
      dsimp only []
      rw [if_neg hne]
      simp
  | succ i ih =>
    intro fuel cs r hno hr hne hf
    cases fuel with
    | zero => omega
    | succ n =>
      have h0 : mtch p cs = [] := by simpa using hno 0 (Nat.succ_pos i)
      rw [execLoop, h0]
      simp only [List.head?_nil]
      cases cs with
      | nil =>
        rw [List.drop_nil, h0] at hr
        simp at hr
      | cons c cs2 =>
        simp only [execSkip]
        exact ih (fun j hj => by simpa using hno (j + 1) (by omega)) hr hne (by omega)

/-- Every component candidate the extractor produces has a PascalCase name:
its first character is in `[A-Z]`. -/
theorem extractReactComponents_name_shape {t f : String} {c : ExtractedComponent}
    (h : c ∈ extractReactComponents t f) :
    ∃ ch rest, c.name = String.mk (ch :: rest) ∧ isUpperAZ ch = true := by
  simp only [extractReactComponents, List.mem_flatMap, List.mem_filterMap] at h
  obtain ⟨p, hp, r, hr, hc⟩ := h
  obtain ⟨m, cap⟩ := r
  obtain ⟨rm, cs2, hsrc⟩ := execLoop_source hr
  have hshape : ∃ ch tl, cap = some (ch :: tl) ∧ isUpperAZ ch = true := by
    simp only [List.mem_cons, List.mem_singleton] at hp
    rcases hp with hp | hp | hp | hp
    · subst hp
      obtain ⟨ch, tl, he, hu⟩ := componentPat_capture hsrc
      exact ⟨ch, tl, by simpa using he, hu⟩
    · subst hp
      obtain ⟨ch, tl, he, hu⟩ := componentPat_capture hsrc
      exact ⟨ch, tl, by simpa using he, hu⟩
    · subst hp
      obtain ⟨ch, tl, he, hu⟩ := componentPat_capture hsrc
      exact ⟨ch, tl, by simpa using he, hu⟩
    · simp at hp
  obtain ⟨ch, tl, hcap, hu⟩ := hshape
  subst hcap
  simp only [candOfMatch] at hc
  by_cases hup : upperCheckJS ch
  · rw [if_pos hup] at hc
    refine ⟨ch, tl, ?_, hu⟩
    have hc2 : c = ⟨String.mk (ch :: tl), String.mk m, f⟩ := by
      have := Option.some.inj hc
      exact this.symm
    rw [hc2]
  · rw [if_neg hup] at hc
    exact absurd hc (by simp)

/-- If the leftmost match of the function-component pattern captures a name
that passes the uppercase check, the corresponding candidate is produced. -/
theorem extractReactComponents_of_first_match {t f : String} {i : Nat}
    {r : List Char × List Char × Option (List Char)} {cand : ExtractedComponent}
    (hno : ∀ j, j < i → mtch patFnComponent (t.toList.drop j) = [])
    (hr : (mtch patFnComponent (t.toList.drop i)).head? = some r)
    (hne : r.1 ≠ []) (hi : i ≤ t.toList.length)
    (hcand : candOfMatch f (r.1, r.2.2) = some cand) :
    cand ∈ extractReactComponents t f := by
  have hmem : (r.1, r.2.2) ∈ execLoop patFnComponent (t.toList.length + 1) t.toList :=
    execLoop_first_match hno hr hne (by omega)
  simp only [extractReactComponents, List.mem_flatMap, List.mem_filterMap]
  exact ⟨patFnComponent, by simp, (r.1, r.2.2), hmem, hcand⟩

/-! ## Non-whitespace preservation of the CSS beautifier -/

/-- Non-whitespace characters (the token content the CSS claim tracks). -/
def nonWs (c : Char) : Bool := !(isWsJS c)

theorem filter_flatMap_single (f : Char → List Char) (p : Char → Bool)
    (h : ∀ c, List.filter p (f c) = List.filter p [c]) :
    ∀ l : List Char, List.filter p (l.flatMap f) = List.filter p l := by
  intro l
  induction l with
  | nil => rfl
  | cons c cs ih =>
    rw [List.flatMap_cons, List.filter_append, ih, h c]
    by_cases hp : p c <;> simp [List.filter_cons, hp]

theorem filter_nonWs_replaceCharL (c : Char) (repl : List Char)
    (h1 : List.filter nonWs repl = [c]) (h2 : nonWs c = true) (l : List Char) :
    List.filter nonWs (replaceCharL c repl l) = List.filter nonWs l := by
  refine filter_flatMap_single _ _ (fun d => ?_) l
  by_cases hd : d = c
  · subst hd
    simp [h1, List.filter_cons, h2]
  · simp [hd]

/-- Every character a `\n\s*\n` match consumes is whitespace. -/
theorem nlRunPat_consumed_ws {cs : List Char}
    {r : List Char × List Char × Option (List Char)} (h : r ∈ mtch nlRunPat cs) :
    ∀ c ∈ r.1, isWsJS c = true := by
  obtain ⟨t1, rm1, c1, t2, rm2, c2, h1, h2, hr⟩ := mem_mtch_cat h
  obtain ⟨_, hr1⟩ := mem_mtch_lit h1
  obtain ⟨t3, rm3, c3, t4, rm4, c4, h3, h4, hr2⟩ := mem_mtch_cat h2
  obtain ⟨hws3, _, _⟩ := mem_mtch_many h3
  obtain ⟨_, hr4⟩ := mem_mtch_lit h4
  intro c hc
  have hrt : r.1 = t1 ++ t2 := congrArg (fun x => x.1) hr
  have ht1 : t1 = "\n".toList := congrArg (fun x => x.1) hr1
  have ht2 : t2 = t3 ++ t4 := congrArg (fun x => x.1) hr2
  have ht4 : t4 = "\n".toList := congrArg (fun x => x.1) hr4
  rw [hrt, ht1, ht2, ht4] at hc
  simp only [List.mem_append] at hc
  rcases hc with hc | hc | hc
  · simp only [show "\n".toList = ['\n'] from rfl, List.mem_singleton] at hc
    subst hc; rfl
  · exact hws3 c hc
  · simp only [show "\n".toList = ['\n'] from rfl, List.mem_singleton] at hc
    subst hc; rfl

theorem filter_nonWs_replaceAllPat_nl :
    ∀ (fuel : Nat) (cs : List Char),
    List.filter nonWs (replaceAllPatAux nlRunPat "\n".toList fuel cs) =
      List.filter nonWs cs := by
  intro fuel
  induction fuel with
  | zero => intro cs; rfl
  | succ n ih =>
    intro cs
    rw [replaceAllPatAux]
    cases hh : (mtch nlRunPat cs).head? with
    | none =>
      cases cs with
      | nil => rfl
      | cons c cs2 =>
        simp only [replSkip, List.filter_cons, ih cs2]
    | some r =>
      dsimp only []
      by_cases he : r.1 = []
      · rw [if_pos he]
        cases cs with
        | nil => rfl
        | cons c cs2 =>
          simp only [replSkip, List.filter_cons, ih cs2]
      · rw [if_neg he]
        have hmem : r ∈ mtch nlRunPat cs := mem_of_head?_eq_some hh
        have happ : r.1 ++ r.2.1 = cs := mtch_append hmem
        have hws : ∀ c ∈ r.1, isWsJS c = true := nlRunPat_consumed_ws hmem
        rw [List.filter_append, ih, ← happ, List.filter_append]
        have h1 : List.filter nonWs r.1 = [] := by
          rw [List.filter_eq_nil_iff]
          intro a ha
          simp [nonWs, hws a ha]
        have h2 : List.filter nonWs "\n".toList = [] := by decide
        rw [h1, h2]

theorem filter_nonWs_dropWhile_ws (l : List Char) :
    List.filter nonWs (l.dropWhile isWsJS) = List.filter nonWs l := by
  induction l with
  | nil => rfl
  | cons c cs ih =>
    by_cases hw : isWsJS c
    · rw [List.dropWhile_cons_of_pos hw, ih, List.filter_cons]
      simp [nonWs, hw]
    · rw [List.dropWhile_cons_of_neg hw]

theorem filter_nonWs_trimL (l : List Char) :
    List.filter nonWs (trimL l) = List.filter nonWs l := by
  rw [trimL, List.filter_reverse, filter_nonWs_dropWhile_ws, List.filter_reverse,
      List.reverse_reverse, filter_nonWs_dropWhile_ws]

/-- The CSS beautifier never changes the sequence of non-whitespace
characters. -/
theorem filter_nonWs_beautifyCSSL (css : List Char) :
    List.filter nonWs (beautifyCSSL css) = List.filter nonWs css := by
  rw [beautifyCSSL, filter_nonWs_trimL, replaceAllPat, filter_nonWs_replaceAllPat_nl,
      filter_nonWs_replaceCharL ',' ",\n  ".toList (by decide) (by decide),
      filter_nonWs_replaceCharL ';' ";\n  ".toList (by decide) (by decide),
      filter_nonWs_replaceCharL '\x7d' "\n\x7d\n".toList (by decide) (by decide),
      filter_nonWs_replaceCharL '\x7b' " \x7b\n  ".toList (by decide) (by decide)]

/-! ## Counter / field invariants of the orchestrator -/

theorem foldl_proj {α β : Type} (g : DecompilationResult → β)
    (f : DecompilationResult → α → DecompilationResult)
    (h : ∀ s a, g (f s a) = g s) :
    ∀ (l : List α) (s : DecompilationResult), g (List.foldl f s l) = g s := by
  intro l
  induction l with
  | nil => intro s; rfl
  | cons x xs ih => intro s; rw [List.foldl_cons, ih, h]

/-- The tuple of all fields except `originalFiles`. -/
def nonOrigFields (s : DecompilationResult) :
    String × String × List BundleInfo × List ExtractedComponent × List ModuleInfo ×
      List (String × String) × Nat × Nat × Nat × Nat :=
  (s.jobId, s.url, s.bundles, s.components, s.modules, s.beautifiedFiles,
   s.jsFiles, s.cssFiles, s.componentsCount, s.modulesCount)

/-- Source-map recovery only writes `originalFiles`. -/
theorem extractFromSourceMap_nonOrig (m : SourceMapInfo) (u : String)
    (s : DecompilationResult) :
    nonOrigFields (extractFromSourceMap m u s) = nonOrigFields s := by
  rw [extractFromSourceMap]
  cases m.sources with
  | none => rfl
  | some sources =>
    cases m.sourcesContent with
    | none => rfl
    | some sourcesContent =>
      dsimp only []
      refine foldl_proj nonOrigFields _ (fun s2 i => ?_) _ s
      split
      · rfl
      · rfl

theorem trySourceMapRecovery_nonOrig (env : Env) (s : DecompilationResult) :
    nonOrigFields (trySourceMapRecovery env s) = nonOrigFields s := by
  rw [trySourceMapRecovery]
  refine foldl_proj nonOrigFields _ (fun s2 b => ?_) _ s
  cases b.type with
  | js =>
    dsimp only []
    cases env.fetchMap (b.url ++ ".map") with
    | none => rfl
    | some m => exact extractFromSourceMap_nonOrig m b.url s2
  | css => rfl

theorem trySourceMapRecovery_bundles (env : Env) (s : DecompilationResult) :
    (trySourceMapRecovery env s).bundles = s.bundles :=
  congrArg (fun x => x.2.2.1) (trySourceMapRecovery_nonOrig env s)

theorem trySourceMapRecovery_components (env : Env) (s : DecompilationResult) :
    (trySourceMapRecovery env s).components = s.components :=
  congrArg (fun x => x.2.2.2.1) (trySourceMapRecovery_nonOrig env s)

theorem trySourceMapRecovery_modules (env : Env) (s : DecompilationResult) :
    (trySourceMapRecovery env s).modules = s.modules :=
  congrArg (fun x => x.2.2.2.2.1) (trySourceMapRecovery_nonOrig env s)

theorem trySourceMapRecovery_jsFiles (env : Env) (s : DecompilationResult) :
    (trySourceMapRecovery env s).jsFiles = s.jsFiles :=
  congrArg (fun x => x.2.2.2.2.2.2.1) (trySourceMapRecovery_nonOrig env s)

theorem trySourceMapRecovery_cssFiles (env : Env) (s : DecompilationResult) :
    (trySourceMapRecovery env s).cssFiles = s.cssFiles :=
  congrArg (fun x => x.2.2.2.2.2.2.2.1) (trySourceMapRecovery_nonOrig env s)

theorem trySourceMapRecovery_componentsCount (env : Env) (s : DecompilationResult) :
    (trySourceMapRecovery env s).componentsCount = s.componentsCount :=
  congrArg (fun x => x.2.2.2.2.2.2.2.2.1) (trySourceMapRecovery_nonOrig env s)

theorem trySourceMapRecovery_modulesCount (env : Env) (s : DecompilationResult) :
    (trySourceMapRecovery env s).modulesCount = s.modulesCount :=
  congrArg (fun x => x.2.2.2.2.2.2.2.2.2) (trySourceMapRecovery_nonOrig env s)

/-- Was this bundle fetched and (for JS) successfully beautified?  These are
exactly the events that increment `analysis.jsFiles` / `analysis.cssFiles`. -/
def jsSuccess (env : Env) (b : BundleInfo) : Bool :=
  match b.type with
  | .js =>
    match env.fetchAsset b.url with
    | some c => (env.beautifyJS c).isSome
    | none => false
  | .css => false

def cssSuccess (env : Env) (b : BundleInfo) : Bool :=
  match b.type with
  | .css => (env.fetchAsset b.url).isSome
  | .js => false

theorem processBundle_jsFiles (env : Env) (s : DecompilationResult) (b : BundleInfo) :
    (processBundle env s b).jsFiles = s.jsFiles + (if jsSuccess env b then 1 else 0) := by
  cases hb : b.type with
  | js =>
    simp only [processBundle, hb, downloadAndDecompileJS, jsSuccess]
    cases hf : env.fetchAsset b.url with
    | none => simp
    | some c =>
      cases hbj : env.beautifyJS c with
      | none => simp [hbj]
      | some bj => simp [hbj, extractModulesStep, extractReactComponentsStep]
  | css =>
    simp only [processBundle, hb, downloadAndDecompileCSS, jsSuccess]
    cases hf : env.fetchAsset b.url with
    | none => simp
    | some c => simp

theorem processBundle_cssFiles (env : Env) (s : DecompilationResult) (b : BundleInfo) :
    (processBundle env s b).cssFiles = s.cssFiles + (if cssSuccess env b then 1 else 0) := by
  cases hb : b.type with
  | js =>
    simp only [processBundle, hb, downloadAndDecompileJS, cssSuccess]
    cases hf : env.fetchAsset b.url with
    | none => simp
    | some c =>
      cases hbj : env.beautifyJS c with
      | none => simp [hbj]
      | some bj => simp [hbj, extractModulesStep, extractReactComponentsStep]
  | css =>
    simp only [processBundle, hb, downloadAndDecompileCSS, cssSuccess]
    cases hf : env.fetchAsset b.url with
    | none => simp
    | some c => simp [hf]

theorem processBundle_bundles (env : Env) (s : DecompilationResult) (b : BundleInfo) :
    (processBundle env s b).bundles = s.bundles := by
  cases hb : b.type with
  | js =>
    simp only [processBundle, hb, downloadAndDecompileJS]
    cases hf : env.fetchAsset b.url with
    | none => rfl
    | some c =>
      cases hbj : env.beautifyJS c with
      | none => simp [hbj]
      | some bj => simp [hbj, extractModulesStep, extractReactComponentsStep]
  | css =>
    simp only [processBundle, hb, downloadAndDecompileCSS]
    cases hf : env.fetchAsset b.url with
    | none => rfl
    | some c => rfl

/-- The count-equals-length invariant of the summary. -/
def countsInv (s : DecompilationResult) : Prop :=
  s.componentsCount = s.components.length ∧ s.modulesCount = s.modules.length

theorem processBundle_countsInv (env : Env) (s : DecompilationResult) (b : BundleInfo)
    (h : countsInv s) : countsInv (processBundle env s b) := by
  cases hb : b.type with
  | js =>
    simp only [processBundle, hb, downloadAndDecompileJS]
    cases hf : env.fetchAsset b.url with
    | none => exact h
    | some c =>
      cases hbj : env.beautifyJS c with
      | none => simpa [hbj, countsInv] using h
      | some bj =>
        constructor <;> simp [hbj, extractModulesStep, extractReactComponentsStep]
  | css =>
    simp only [processBundle, hb, downloadAndDecompileCSS]
    cases hf : env.fetchAsset b.url with
    | none => exact h
    | some c => exact ⟨h.1, h.2⟩

theorem foldl_processBundle_jsFiles (env : Env) :
    ∀ (bs : List BundleInfo) (s : DecompilationResult),
    (List.foldl (processBundle env) s bs).jsFiles = s.jsFiles + bs.countP (jsSuccess env) := by
  intro bs
  induction bs with
  | nil => intro s; simp
  | cons b t ih =>
    intro s
    rw [List.foldl_cons, ih, processBundle_jsFiles, List.countP_cons]
    by_cases hj : jsSuccess env b <;> simp [hj] <;> omega

theorem foldl_processBundle_cssFiles (env : Env) :
    ∀ (bs : List BundleInfo) (s : DecompilationResult),
    (List.foldl (processBundle env) s bs).cssFiles = s.cssFiles + bs.countP (cssSuccess env) := by
  intro bs
  induction bs with
  | nil => intro s; simp
  | cons b t ih =>
    intro s
    rw [List.foldl_cons, ih, processBundle_cssFiles, List.countP_cons]
    by_cases hj : cssSuccess env b <;> simp [hj] <;> omega

theorem foldl_processBundle_countsInv (env : Env) :
    ∀ (bs : List BundleInfo) (s : DecompilationResult),
    countsInv s → countsInv (List.foldl (processBundle env) s bs) := by
  intro bs
  induction bs with
  | nil => intro s h; exact h
  | cons b t ih =>
    intro s h
    exact ih _ (processBundle_countsInv env s b h)

theorem foldl_processBundle_bundles (env : Env) (bs : List BundleInfo)
    (s : DecompilationResult) :
    (List.foldl (processBundle env) s bs).bundles = s.bundles :=
  foldl_proj (fun s => s.bundles) _ (processBundle_bundles env) bs s

/-! ## Claim theorems -/

/-- A concrete root URL used by several concrete instances:
`https://example.com/`. -/
def exampleBase : UrlBase := ⟨"https", "example.com", "/"⟩

/-- C1 (corrected).  Only references that start with `/` are resolved: for
those the BundleRef url is the standard resolution against the root URL
(the code delegates to `new URL(ref, baseUrl)`); every other reference —
including plain relative ones like `js/app.js` — is used verbatim as the
url, unresolved. -/
theorem c1_reference_resolution (base : UrlBase) (ref : String) :
    (jsStartsWith ref "/" = true → mkBundleUrl base ref = urlResolveSpec base ref) ∧
    (jsStartsWith ref "/" = false → mkBundleUrl base ref = ref) := by
  constructor
  · intro h
    rw [mkBundleUrl, if_pos h]
  · intro h
    rw [mkBundleUrl, if_neg (by simp [h])]

theorem c1_reference_resolution_witness :
    mkBundleUrl exampleBase "/app.js" = urlResolveSpec exampleBase "/app.js" ∧
    mkBundleUrl exampleBase "js/app.js" = "js/app.js" :=
  ⟨(c1_reference_resolution exampleBase "/app.js").1 (by decide),
   (c1_reference_resolution exampleBase "js/app.js").2 (by decide)⟩

set_option maxHeartbeats 2000000 in
/-- C1 counterexample: the relative reference `js/app.js` against root
`https://example.com/` is emitted verbatim — not the absolute URL
`https://example.com/js/app.js` that standard resolution produces; the
emitted url does not even carry a scheme. -/
theorem c1_reference_resolution_counterexample :
    discoverBundles exampleBase [.script (some "js/app.js")] =
      [⟨"js/app.js", .js, "app.js"⟩] ∧
    urlResolveSpec exampleBase "js/app.js" = "https://example.com/js/app.js" ∧
    containsSubL "://".toList "js/app.js".toList = false := by
  refine ⟨by decide, by decide, by decide⟩

/-- Scripts with a nonempty `src`: the references the code actually turns
into JS bundles. -/
def isScriptRef (t : Tag) : Bool :=
  match t with
  | .script (some s) => !(s = "")
  | _ => false

/-- Stylesheet links with a nonempty `href`. -/
def isStylesheetRef (t : Tag) : Bool :=
  match t with
  | .link rel (some h) => rel = "stylesheet" && !(h = "")
  | _ => false

/-- C2 (corrected).  Discovery yields one BundleRef per script with nonempty
`src` plus one per stylesheet link with nonempty `href` — but the output
lists all scripts first (in document order among scripts) and then all
stylesheets (in document order among stylesheets), not global document
order. -/
theorem c2_discovery_count_order (base : UrlBase) (tags : List Tag) :
    (discoverBundles base tags).length =
      tags.countP isScriptRef + tags.countP isStylesheetRef ∧
    discoverBundles base tags =
      tags.filterMap (scriptBundle base) ++ tags.filterMap (stylesheetBundle base) := by
  constructor
  · rw [discoverBundles, List.length_append,
        length_filterMap_eq_countP, length_filterMap_eq_countP]
    congr 1
    · refine List.countP_congr (fun t _ => ?_)
      cases t with
      | script src =>
        cases src with
        | none => rfl
        | some s => by_cases hs : s = "" <;> simp [scriptBundle, isScriptRef, hs]
      | link rel href => rfl
      | other => rfl
    · refine List.countP_congr (fun t _ => ?_)
      cases t with
      | script src => rfl
      | link rel href =>
        cases href with
        | none => simp [stylesheetBundle, isStylesheetRef]
        | some h =>
          by_cases hr : rel = "stylesheet" <;> by_cases hh : h = "" <;>
            simp [stylesheetBundle, isStylesheetRef, hr, hh]
      | other => rfl
  · rfl

set_option maxHeartbeats 2000000 in
/-- C2 counterexample: a document whose stylesheet link precedes its script
still yields the script bundle first (so global document order is not
preserved), and a script whose `src` attribute is the empty string yields no
entry at all (so the count is not `N + M` over attribute presence). -/
theorem c2_discovery_count_order_counterexample :
    discoverBundles exampleBase [.link "stylesheet" (some "/a.css"), .script (some "/b.js")] =
      [⟨"https://example.com/b.js", .js, "b.js"⟩, ⟨"https://example.com/a.css", .css, "a.css"⟩] ∧
    discoverBundles exampleBase [.script (some "")] = [] := by
  refine ⟨by decide, by decide⟩

/-- C8 (confirmed).  The CSS beautifier is total by construction (a plain
function with no failure path), and re-beautifying changes at most
whitespace: the non-whitespace character sequence of
`beautifyCSS (beautifyCSS x)` equals that of `beautifyCSS x` for every
input.  (This follows from the stronger fact `filter_nonWs_beautifyCSSL`:
one application already preserves the non-whitespace sequence.) -/
theorem c8_beautifyCSS_idempotent (x : String) :
    (beautifyCSS (beautifyCSS x)).toList.filter nonWs =
      (beautifyCSS x).toList.filter nonWs := by
  have h1 : ∀ (l : List Char), (String.mk l).toList = l := fun l => rfl
  simp only [beautifyCSS, h1]
  exact filter_nonWs_beautifyCSSL (beautifyCSSL x.toList)

/-- C6 (confirmed).  When the beautifier throws on a retrieved JS bundle,
the untouched original text is stored under the `raw_`-prefixed name, no
`beautified_`-prefixed entry is added for the bundle, and neither the
component list nor the module list grows. -/
theorem c6_raw_fallback (env : Env) (b : BundleInfo) (s : DecompilationResult)
    (content : String) (hf : env.fetchAsset b.url = some content)
    (hb : env.beautifyJS content = none) :
    downloadAndDecompileJS env b s =
      { s with originalFiles := objSet s.originalFiles b.filename content,
               beautifiedFiles := objSet s.beautifiedFiles ("raw_" ++ b.filename) content } ∧
    objGet (downloadAndDecompileJS env b s).beautifiedFiles ("beautified_" ++ b.filename) =
      objGet s.beautifiedFiles ("beautified_" ++ b.filename) ∧
    (downloadAndDecompileJS env b s).components = s.components ∧
    (downloadAndDecompileJS env b s).modules = s.modules := by
  have hmain : downloadAndDecompileJS env b s =
      { s with originalFiles := objSet s.originalFiles b.filename content,
               beautifiedFiles := objSet s.beautifiedFiles ("raw_" ++ b.filename) content } := by
    rw [downloadAndDecompileJS, hf]
    dsimp only []
    rw [hb]
  have hne : ("raw_" ++ b.filename : String) ≠ ("beautified_" ++ b.filename : String) := by
    intro he
    have hlen := congrArg String.length he
    rw [String.length_append, String.length_append,
        show ("raw_" : String).length = 4 from rfl,
        show ("beautified_" : String).length = 11 from rfl] at hlen
    omega
  refine ⟨hmain, ?_, ?_, ?_⟩
  · rw [hmain]
    exact objGet_objSet_ne _ _ _ _ hne
  · rw [hmain]
  · rw [hmain]

theorem c6_raw_fallback_witness :
    downloadAndDecompileJS
      ⟨fun _ => none, fun _ => some "MIN(", fun _ => none, fun _ => none, fun _ => none⟩
      ⟨"https://example.com/app.js", .js, "app.js"⟩ (initResults "j" "https://example.com/")
      = { initResults "j" "https://example.com/" with
            originalFiles := [("app.js", "MIN(")],
            beautifiedFiles := [("raw_app.js", "MIN(")] } :=
  (c6_raw_fallback
      ⟨fun _ => none, fun _ => some "MIN(", fun _ => none, fun _ => none, fun _ => none⟩
      ⟨"https://example.com/app.js", .js, "app.js"⟩ (initResults "j" "https://example.com/")
      "MIN(" rfl rfl).1

/-- C9 (confirmed).  A retrieved source map with `sources = ["./src/App.js"]`
and matching nonempty `sourcesContent` stores an entry keyed
`source_App.js` in the *same* `originalFiles` map as directly retrieved
assets, and its content begins with the fixed recovery-header comment. -/
theorem c9_sourcemap_recovery (s : DecompilationResult) (url c : String)
    (hc : c ≠ "") :
    extractFromSourceMap ⟨some ["./src/App.js"], some [c]⟩ url s =
      { s with originalFiles :=
          objSet s.originalFiles "source_App.js" (recoveredContent url "./src/App.js" c) } ∧
    objGet (extractFromSourceMap ⟨some ["./src/App.js"], some [c]⟩ url s).originalFiles
      "source_App.js" = some (recoveredContent url "./src/App.js" c) ∧
    ∃ rest, recoveredContent url "./src/App.js" c =
      "// Recovered from source map: " ++ rest := by
  have hkey : ("source_" ++ lastSegOr (cleanSourcePath "./src/App.js") "unknown.js" : String) =
      "source_App.js" := by decide
  have hmain : extractFromSourceMap ⟨some ["./src/App.js"], some [c]⟩ url s =
      { s with originalFiles :=
          objSet s.originalFiles "source_App.js" (recoveredContent url "./src/App.js" c) } := by
    rw [extractFromSourceMap]
    dsimp only []
    rw [show List.range ["./src/App.js"].length = [0] from rfl, List.foldl_cons,
        List.foldl_nil]
    have e1 : (["./src/App.js"].getD 0 "") = "./src/App.js" := rfl
    have e2 : ([c].getD 0 "") = c := rfl
    rw [if_neg (by simp [e1, e2, hc]), e1, e2, hkey]
  refine ⟨hmain, ?_, ?_⟩
  · rw [hmain]
    exact objGet_objSet_self _ _ _
  · refine ⟨url ++ "\n// Original path: " ++ "./src/App.js" ++ "\n\n" ++ c, ?_⟩
    simp [recoveredContent, String.append_assoc]

theorem c9_sourcemap_recovery_witness :
    extractFromSourceMap ⟨some ["./src/App.js"], some ["CODE"]⟩ "https://x/b.js"
        (initResults "j" "u") =
      { initResults "j" "u" with originalFiles :=
          [("source_App.js", recoveredContent "https://x/b.js" "./src/App.js" "CODE")] } :=
  (c9_sourcemap_recovery (initResults "j" "u") "https://x/b.js" "CODE" (by decide)).1

/-- The job result exhibiting the C10 truthiness quirk: the requested
filename is a key of `originalFiles` (with empty-string content) and of
`beautifiedFiles` (with nonempty content). -/
def c10Result : DecompilationResult :=
  { initResults "j" "u" with
      originalFiles := [("a.js", "")],
      beautifiedFiles := [("a.js", "BEAUT")] }

set_option maxHeartbeats 2000000 in
/-- C10 counterexample: `a.js` *is* a key of `originalFiles`, yet the
endpoint returns the `beautifiedFiles` content, because the JS truthiness
check `if (result.originalFiles[fileName])` treats the empty-string content
as absent. -/
theorem c10_file_content_endpoint_counterexample :
    objGet c10Result.originalFiles "a.js" = some "" ∧
    filesGET [("j", c10Result)] "j" "a.js" =
      .fileOk ⟨"a.js", "BEAUT", "beautified", 5⟩ := by
  refine ⟨by decide, by decide⟩

/-- C10 (corrected).  The lookup priority is by JS *truthiness*, not key
presence: the endpoint returns the `originalFiles` content when that map
holds a nonempty string under the filename, else the `beautifiedFiles`
content when that map holds a nonempty string, else a `File not found`
error; the reported size equals the returned content's length. -/
theorem c10_file_content_endpoint (storage : List (String × DecompilationResult))
    (jobId fileName : String) (result : DecompilationResult) (c : String)
    (hjob : objGet storage jobId = some result) :
    (truthyGet result.originalFiles fileName = some c →
      filesGET storage jobId fileName = .fileOk ⟨fileName, c, "original", c.length⟩) ∧
    (truthyGet result.originalFiles fileName = none →
      truthyGet result.beautifiedFiles fileName = some c →
      filesGET storage jobId fileName = .fileOk ⟨fileName, c, "beautified", c.length⟩) ∧
    (truthyGet result.originalFiles fileName = none →
      truthyGet result.beautifiedFiles fileName = none →
      filesGET storage jobId fileName = .apiError 404 "File not found") := by
  refine ⟨?_, ?_, ?_⟩
  · intro h1
    rw [filesGET, hjob]
    dsimp only []
    rw [h1]
  · intro h1 h2
    rw [filesGET, hjob]
    dsimp only []
    rw [h1, h2]
  · intro h1 h2
    rw [filesGET, hjob]
    dsimp only []
    rw [h1, h2]

/-- Job record for the C10 witness. -/
def c10WitnessResult : DecompilationResult :=
  { initResults "j" "u" with originalFiles := [("a.js", "CONTENT")] }

theorem c10_file_content_endpoint_witness :
    filesGET [("j", c10WitnessResult)] "j" "a.js" =
      .fileOk ⟨"a.js", "CONTENT", "original", 7⟩ :=
  (c10_file_content_endpoint [("j", c10WitnessResult)] "j" "a.js" c10WitnessResult
      "CONTENT" (by rfl)).1 (by rfl)

/-- C3 (confirmed).  When the root fetch fails or zero bundles are
discovered, the whole job aborts: the caller gets a 500 with a descriptive
message and the job registry is left untouched, so a job id absent before is
still absent. -/
theorem c3_fatal_abort (env : Env) (body : DecompilationRequest)
    (storage : List (String × DecompilationResult)) (base : UrlBase)
    (hu : body.url ≠ "") (hj : body.jobId ≠ "")
    (hp : env.parseUrl body.url = some base)
    (hfail : env.fetchHtml base.render = none ∨
      ∃ doc, env.fetchHtml base.render = some doc ∧ discoverBundles base doc.tags = []) :
    (POST env body storage).2 = storage ∧
    ((POST env body storage).1 =
        .failure 500 "Decompilation failed" (some "Failed to analyze HTML structure") ∨
     (POST env body storage).1 =
        .failure 500 "Decompilation failed" (some "No bundles found to decompile")) ∧
    (objGet storage body.jobId = none →
      objGet (POST env body storage).2 body.jobId = none) := by
  have hrun : runFullDecompilation env base body.jobId =
      .error "Failed to analyze HTML structure" ∨
      runFullDecompilation env base body.jobId = .error "No bundles found to decompile" := by
    rcases hfail with h | ⟨doc, hd, hb⟩
    · left
      rw [runFullDecompilation, analyzeHTML, h]
    · right
      rw [runFullDecompilation, analyzeHTML, hd]
      dsimp only []
      rw [hb]
      simp
  rcases hrun with h | h
  · have hpost : POST env body storage =
        (.failure 500 "Decompilation failed" (some "Failed to analyze HTML structure"),
         storage) := by
      rw [POST, if_neg (by simp [hu, hj]), hp]
      dsimp only []
      rw [h]
    refine ⟨by rw [hpost], .inl (by rw [hpost]), fun habs => ?_⟩
    rw [hpost]
    exact habs
  · have hpost : POST env body storage =
        (.failure 500 "Decompilation failed" (some "No bundles found to decompile"),
         storage) := by
      rw [POST, if_neg (by simp [hu, hj]), hp]
      dsimp only []
      rw [h]
    refine ⟨by rw [hpost], .inr (by rw [hpost]), fun habs => ?_⟩
    rw [hpost]
    exact habs

theorem c3_fatal_abort_witness :
    (POST ⟨fun _ => none, fun _ => none, fun _ => none, fun _ => none,
        fun _ => some exampleBase⟩ ⟨"https://example.com/", "job1"⟩ []).2 = [] ∧
    ((POST ⟨fun _ => none, fun _ => none, fun _ => none, fun _ => none,
        fun _ => some exampleBase⟩ ⟨"https://example.com/", "job1"⟩ []).1 =
      .failure 500 "Decompilation failed" (some "Failed to analyze HTML structure") ∨
     (POST ⟨fun _ => none, fun _ => none, fun _ => none, fun _ => none,
        fun _ => some exampleBase⟩ ⟨"https://example.com/", "job1"⟩ []).1 =
      .failure 500 "Decompilation failed" (some "No bundles found to decompile")) :=
  have h := c3_fatal_abort
    ⟨fun _ => none, fun _ => none, fun _ => none, fun _ => none, fun _ => some exampleBase⟩
    ⟨"https://example.com/", "job1"⟩ [] exampleBase (by decide) (by decide) rfl (.inl rfl)
  ⟨h.1, h.2.1⟩

/-- C5 (confirmed).  A bundle whose retrieval fails is dropped entirely —
the state is returned unchanged, so the job continues with the remaining
bundles — and the end-to-end scenario holds: a root document with a single
script whose fetch 404s completes successfully with one discovered bundle,
`index.html` as the only stored original, an empty beautified map and
`analysis.jsFiles = 0`. -/
theorem c5_failed_bundle_dropped (env : Env) (base : UrlBase) (jobId html : String)
    (h1 : env.fetchHtml base.render = some ⟨html, [.script (some "/app.js")]⟩)
    (h2 : env.fetchAsset (mkBundleUrl base "/app.js") = none)
    (h3 : env.fetchMap (mkBundleUrl base "/app.js" ++ ".map") = none) :
    (∀ (s : DecompilationResult) (b : BundleInfo), b.type = .js →
      env.fetchAsset b.url = none → processBundle env s b = s) ∧
    (runFullDecompilation env base jobId).map
      (fun s => (s.bundles.length, s.originalFiles, s.beautifiedFiles, s.jsFiles)) =
      .ok (1, [("index.html", html)], [], 0) := by
  constructor
  · intro s b hb hf
    simp only [processBundle, hb, downloadAndDecompileJS, hf]
  · have hbundles : discoverBundles base [Tag.script (some "/app.js")] =
        [⟨mkBundleUrl base "/app.js", .js, "app.js"⟩] := by
      rw [discoverBundles]
      rw [show ([Tag.script (some "/app.js")].filterMap (scriptBundle base)) =
          [⟨mkBundleUrl base "/app.js", .js, lastSegOr "/app.js" "script.js"⟩] by
        simp [scriptBundle]]
      rw [show lastSegOr "/app.js" "script.js" = "app.js" from by decide]
      simp [stylesheetBundle]
    rw [runFullDecompilation, analyzeHTML, h1]
    dsimp only []
    rw [hbundles]
    rw [if_neg (by simp)]
    simp only [initResults, objSet]
    rw [trySourceMapRecovery]
    dsimp only []
    rw [List.foldl_cons, List.foldl_nil]
    rw [List.foldl_cons, List.foldl_nil]
    simp only [h3]
    simp only [processBundle, downloadAndDecompileJS, h2]
    rfl

theorem c5_failed_bundle_dropped_witness :
    (runFullDecompilation
      ⟨fun u => if u = "https://example.com/" then
          some ⟨"<html>", [.script (some "/app.js")]⟩ else none,
        fun _ => none, fun _ => none, fun _ => none, fun _ => none⟩
      exampleBase "job1").map
      (fun s => (s.bundles.length, s.originalFiles, s.beautifiedFiles, s.jsFiles)) =
      .ok (1, [("index.html", "<html>")], [], 0) :=
  (c5_failed_bundle_dropped
    ⟨fun u => if u = "https://example.com/" then
        some ⟨"<html>", [.script (some "/app.js")]⟩ else none,
      fun _ => none, fun _ => none, fun _ => none, fun _ => none⟩
    exampleBase "job1" "<html>" (by rfl) rfl rfl).2

/-- C4 (corrected).  At hand-off `analysis.components` / `analysis.modules`
do equal the lengths of the component / module lists, but
`analysis.jsFiles` counts only JS bundles that were fetched *and*
successfully beautified (a `raw_` fallback entry lands in the
beautified-files map without incrementing the counter), and
`analysis.cssFiles` counts the CSS bundles fetched — neither counter is in
general the number of bundles recorded in the beautified-files map. -/
theorem c4_summary_counters (env : Env) (base : UrlBase) (jobId : String)
    (s : DecompilationResult) (h : runFullDecompilation env base jobId = .ok s) :
    s.componentsCount = s.components.length ∧
    s.modulesCount = s.modules.length ∧
    s.jsFiles = s.bundles.countP (jsSuccess env) ∧
    s.cssFiles = s.bundles.countP (cssSuccess env) := by
  rw [runFullDecompilation] at h
  cases hfh : env.fetchHtml base.render with
  | none =>
    rw [analyzeHTML, hfh] at h
    exact absurd h (by simp)
  | some doc =>
    rw [analyzeHTML, hfh] at h
    dsimp only [] at h
    by_cases hlen : (discoverBundles base doc.tags).length = 0
    · rw [if_pos hlen] at h
      exact absurd h (by simp)
    · rw [if_neg hlen] at h
      have hinj := Except.ok.inj h
      subst hinj
      have hinv : countsInv (trySourceMapRecovery env
          { jobId := (initResults jobId base.render).jobId,
            url := (initResults jobId base.render).url,
            bundles := discoverBundles base doc.tags,
            components := (initResults jobId base.render).components,
            modules := (initResults jobId base.render).modules,
            originalFiles := objSet (initResults jobId base.render).originalFiles "index.html" doc.raw,
            beautifiedFiles := (initResults jobId base.render).beautifiedFiles,
            jsFiles := (initResults jobId base.render).jsFiles,
            cssFiles := (initResults jobId base.render).cssFiles,
            componentsCount := (initResults jobId base.render).componentsCount,
            modulesCount := (initResults jobId base.render).modulesCount }) := by
        constructor
        · rw [trySourceMapRecovery_componentsCount, trySourceMapRecovery_components]
          rfl
        · rw [trySourceMapRecovery_modulesCount, trySourceMapRecovery_modules]
          rfl
      have hfinal := foldl_processBundle_countsInv env (discoverBundles base doc.tags) _ hinv
      refine ⟨hfinal.1, hfinal.2, ?_, ?_⟩
      · rw [foldl_processBundle_jsFiles, foldl_processBundle_bundles,
            trySourceMapRecovery_jsFiles, trySourceMapRecovery_bundles]
        simp [initResults]
      · rw [foldl_processBundle_cssFiles, foldl_processBundle_bundles,
            trySourceMapRecovery_cssFiles, trySourceMapRecovery_bundles]
        simp [initResults]

/-- A run in which the single JS bundle is fetched but its beautification
throws. -/
def c4Env : Env :=
  ⟨fun _ => some ⟨"<html>", [.script (some "/app.js")]⟩,
   fun _ => some "MIN", fun _ => none, fun _ => none, fun _ => none⟩

set_option maxHeartbeats 2000000 in
/-- C4 counterexample: after a run whose only (JS) bundle fails
beautification, the beautified-files map records that JS bundle (one `raw_`
entry) while `analysis.jsFiles` is 0 — so `jsFiles` does not equal the
number of JS bundles recorded in the beautified-files map. -/
theorem c4_summary_counters_counterexample :
    (runFullDecompilation c4Env exampleBase "job").map
      (fun s => (s.beautifiedFiles, s.jsFiles, s.bundles.map (fun b => b.type))) =
      .ok ([("raw_app.js", "MIN")], 0, [.js]) := by
  rfl

/-- The full result record of the `c4Env` run. -/
def c4Result : DecompilationResult :=
  { jobId := "job", url := "https://example.com/",
    bundles := [⟨"https://example.com/app.js", .js, "app.js"⟩],
    components := [], modules := [],
    originalFiles := [("index.html", "<html>"), ("app.js", "MIN")],
    beautifiedFiles := [("raw_app.js", "MIN")],
    jsFiles := 0, cssFiles := 0, componentsCount := 0, modulesCount := 0 }

set_option maxHeartbeats 2000000 in
theorem c4_summary_counters_witness :
    c4Result.componentsCount = c4Result.components.length ∧
    c4Result.modulesCount = c4Result.modules.length ∧
    c4Result.jsFiles = c4Result.bundles.countP (jsSuccess c4Env) ∧
    c4Result.cssFiles = c4Result.bundles.countP (cssSuccess c4Env) :=
  c4_summary_counters c4Env exampleBase "job" c4Result (by rfl)

/-- C7 (corrected).  (i) When the *leftmost* match of the function-component
pattern in the text captures a name (and passes the uppercase check), the
corresponding candidate is extracted — so a text whose first component-shaped
declaration is `function Header(...){...return...jsx...}` yields a candidate
named `Header`.  (ii) Every extracted candidate's name starts with an
uppercase ASCII letter, so a lowercase-named function such as `header` never
yields a candidate.  The unrestricted claim, with the `Header` declaration
anywhere in the text, is false: an earlier overlapping match can swallow the
declaration (see the counterexample). -/
theorem c7_component_extraction :
    (∀ (t f : String) (i : Nat) (r : List Char × List Char × Option (List Char))
        (cand : ExtractedComponent),
      (∀ j, j < i → mtch patFnComponent (t.toList.drop j) = []) →
      (mtch patFnComponent (t.toList.drop i)).head? = some r →
      r.1 ≠ [] → i ≤ t.toList.length →
      candOfMatch f (r.1, r.2.2) = some cand →
      cand ∈ extractReactComponents t f) ∧
    (∀ (t f : String) (c : ExtractedComponent), c ∈ extractReactComponents t f →
      (∃ ch rest, c.name = String.mk (ch :: rest) ∧ isUpperAZ ch = true) ∧
      c.name ≠ "header") := by
  constructor
  · intro t f i r cand hno hr hne hi hcand
    exact extractReactComponents_of_first_match hno hr hne hi hcand
  · intro t f c hc
    obtain ⟨ch, rest, hname, hup⟩ := extractReactComponents_name_shape hc
    refine ⟨⟨ch, rest, hname, hup⟩, ?_⟩
    intro he
    have hmk : String.mk (ch :: rest) = "header" := hname.symm.trans he
    have hdata : ch :: rest = 'h' :: "eader".toList := congrArg String.data hmk
    have hch : ch = 'h' := (List.cons.inj hdata).1
    rw [hch] at hup
    exact absurd hup (by decide)

/-- Text whose only component-shaped declaration is `Header`. -/
def c7Text : String := "function Header(props) \x7b return jsx; \x7d"

set_option maxHeartbeats 4000000 in
theorem c7_component_extraction_witness :
    (⟨"Header", c7Text, "app.js"⟩ : ExtractedComponent) ∈
      extractReactComponents c7Text "app.js" :=
  c7_component_extraction.1 c7Text "app.js" 0
    (c7Text.toList, [], some "Header".toList)
    ⟨"Header", c7Text, "app.js"⟩
    (fun j hj => absurd hj (by omega))
    (by decide) (by decide) (by decide) (by decide)

/-- A text containing the component-shaped declaration
`function Header(){return jsx}` (starting at offset 25), preceded by
`function Foo(){return js ` whose own pattern match swallows it. -/
def c7CounterText : String :=
  "function Foo()\x7breturn js function Header()\x7breturn jsx\x7d"

set_option maxHeartbeats 4000000 in
/-- C7 counterexample: the text contains a function declaration named
`Header` whose body returns a JSX-looking fragment (the pattern matches at
offset 25 with capture `Header`), yet extraction yields no candidate named
`Header` — the leftmost match of the same pattern captures `Foo` and
consumes the `Header` declaration. -/
theorem c7_component_extraction_counterexample :
    ((mtch patFnComponent (c7CounterText.toList.drop 25)).head?.map (fun r => r.2.2)) =
      some (some "Header".toList) ∧
    ¬ ("Header" ∈ (extractReactComponents c7CounterText "bundle.js").map
        (fun c => c.name)) := by
  refine ⟨by decide, by decide⟩
